import Mathlib

/-!
Shallow embedding of the durable job queue and delivery pipeline of
`local-mail-forwarder-graph`, centred on the patched Microsoft-Graph worker
(`src/worker.js`, first document, lines 1-228) and its mail helper
(`src/ms-graph-mail.js`, second document).  The jobs table of the worker
(`src/worker.js:48-56`) has columns `id` (INTEGER PRIMARY KEY AUTOINCREMENT),
`msg_id` (TEXT UNIQUE), `status`, `payload`, `created_at`; the SMTP enqueuer
variant of the repository (`src/unnamed/part_000:19-29`) declares the same
table name with the further columns `attempts` (INTEGER DEFAULT 0) and
`next_run_at` (INTEGER).  The `Job` record below carries the union of the two
column sets; no SQL statement of `src/worker.js` reads or writes `attempts`
or `next_run_at`, so every worker operation leaves those fields untouched,
exactly as an `UPDATE jobs SET status=... WHERE id=?` leaves every other
column of the row unchanged.
-/

namespace LocalMailForwarder

/-- The `status` column: the values written by the code are the string
literals pending / processing / done / error. -/
inductive Status where
  | pending
  | processing
  | done
  | error
deriving DecidableEq, Repr

/-- One row of the `jobs` table (union of the two schema declarations,
see the file header). -/
structure Job where
  id : Nat
  msg_id : String
  status : Status
  payload : String
  created_at : Nat
  attempts : Nat
  next_run_at : Nat
deriving DecidableEq, Repr

/-- The jobs table.  `rows` is kept in rowid (= `id`) order; `nextId` is the
AUTOINCREMENT counter. -/
structure Store where
  rows : List Job
  nextId : Nat
deriving DecidableEq, Repr

/-- Well-formedness of a store: rows are strictly ordered by `id`
(AUTOINCREMENT primary key) and every id is below the autoincrement
counter. -/
abbrev Store.WF (s : Store) : Prop :=
  s.rows.Pairwise (fun a b => a.id < b.id) ∧ ∀ r ∈ s.rows, r.id < s.nextId

/-- `SELECT status FROM jobs WHERE id=?` (first matching row). -/
def statusOf (s : Store) (i : Nat) : Option Status :=
  (s.rows.find? (fun r => r.id = i)).map Job.status

/-- `SELECT * FROM jobs WHERE id=?` (first matching row). -/
def rowOf (s : Store) (i : Nat) : Option Job :=
  s.rows.find? (fun r => r.id = i)

/-- `src/worker.js:59-62`:
`INSERT OR IGNORE INTO jobs (msg_id, status, payload, created_at) VALUES
(@msg_id, @status, @payload, datetime('now'))`.
The `msg_id` column is UNIQUE, so the insert is ignored when a row with the
same `msg_id` exists.  The returned Bool is better-sqlite3's
`info.changes = 1`, reporting whether a row was actually created.
`attempts := 0` is the schema default of `src/unnamed/part_000:23`;
`next_run_at := now` matches the enqueuer's insert
(`src/unnamed/part_000:71`); the worker's statement itself sets neither. -/
def insertJob (s : Store) (m : String) (st : Status) (payload : String)
    (now : Nat) : Store × Bool :=
  if s.rows.any (fun r => r.msg_id = m) then
    (s, false)
  else
    let newJob : Job :=
      { id := s.nextId, msg_id := m, status := st, payload := payload,
        created_at := now, attempts := 0, next_run_at := now }
    ({ rows := s.rows ++ [newJob], nextId := s.nextId + 1 }, true)

/-- The rows the claim query selects
(`SELECT ... FROM jobs WHERE status='pending' ORDER BY id LIMIT ?`,
`src/worker.js:73`): the first `limit` pending rows in `id` order. -/
def claimTake (s : Store) (limit : Nat) : List Job :=
  (s.rows.filter (fun r => r.status = Status.pending)).take limit

/-- `src/worker.js:73-74`: the ids of the selected rows
(`rows.map(r => r.id)`). -/
def claimIds (s : Store) (limit : Nat) : List Nat :=
  (claimTake s limit).map Job.id

/-- `src/worker.js:71-85` (`claimAndGetJobs`), the body of the
`db.transaction`: select up to `limit` pending ids (ordered by `id`), if none
return the empty batch, otherwise
`UPDATE jobs SET status='processing' WHERE id IN (...)` and
`SELECT * FROM jobs WHERE id IN (...) ORDER BY id`, returning the claimed
rows together with the updated store.  The transaction makes the three
statements one atomic unit, which the embedding renders as a single pure
function. -/
def claimAndGetJobs (s : Store) (limit : Nat) : List Job × Store :=
  let ids := claimIds s limit
  if ids.isEmpty then ([], s)
  else
    let rows2 := s.rows.map
      (fun r => if r.id ∈ ids then { r with status := Status.processing } else r)
    (rows2.filter (fun r => r.id ∈ ids), { s with rows := rows2 })

/-- `src/worker.js:64`: `UPDATE jobs SET status='done' WHERE id=?`. -/
def markJobDone (s : Store) (i : Nat) : Store :=
  { s with
      rows := s.rows.map (fun r =>
        if r.id = i then { r with status := Status.done } else r) }

/-- `src/worker.js:65`: `UPDATE jobs SET status='error' WHERE id=?`. -/
def markJobError (s : Store) (i : Nat) : Store :=
  { s with
      rows := s.rows.map (fun r =>
        if r.id = i then { r with status := Status.error } else r) }

/-- `src/worker.js:66`:
`UPDATE jobs SET status='pending' WHERE status='processing'`. -/
def resetProcessingToPending (s : Store) : Store :=
  { s with
      rows := s.rows.map (fun r =>
        if r.status = Status.processing
        then { r with status := Status.pending } else r) }

/-- `src/worker.js:88-94`: startup crash recovery, runs
`resetProcessingToPending` (the catch branch only logs). -/
def recoverStuckProcessing (s : Store) : Store :=
  resetProcessingToPending s

/-! ### The delivery attempt (`src/worker.js:133-201`, `processJobs`)

The external interactions of one attempt are modelled by the outcome they
produce in the worker:
* the `fetch(WEBHOOK_URL, ...)` call either throws (network failure /
  timeout) or yields a response with a Boolean `resp.ok` and a body;
* `resp.json()` either throws (malformed body) or yields a JSON value, of
  which the worker inspects only `webhookResult?.shouldMarkAsRead === true`
  — a strict comparison, so the field is either absent or some Boolean;
* `markMessageAsRead` (`src/ms-graph-mail.js:209-225`) sends a PATCH with
  `{isRead:true}`; on a thrown error (token fetch or the request itself)
  the worker's catch fires, but on a non-2xx PATCH response the helper only
  logs (`if (!resp.ok) { ... logger.error(...) }`) and returns normally —
  it does not throw, so the worker cannot observe that failure. -/

/-- The parsed webhook acknowledgment body: the worker reads only the
`shouldMarkAsRead` field (`src/worker.js:168`); `none` models an absent or
non-Boolean field (the strict `=== true` check then fails). -/
structure AckBody where
  shouldMarkAsRead : Option Bool
deriving DecidableEq, Repr

/-- The webhook HTTP response: `ok` is `resp.ok`; `body = none` models a
`resp.json()` that throws (`src/worker.js:159-165`). -/
structure WebhookResponse where
  ok : Bool
  body : Option AckBody
deriving DecidableEq, Repr

/-- Result of the `markMessageAsRead` call as the worker observes it:
`exn` — `getGraphAccessToken` or the PATCH request threw (worker catch at
`src/worker.js:183-190` fires); `ret patchOk` — the helper returned
normally, `patchOk` being the HTTP success of the PATCH response, which the
helper logs but never reports (`src/ms-graph-mail.js:221-224`). -/
inductive MarkReadResult where
  | exn
  | ret (patchOk : Bool)
deriving DecidableEq, Repr

/-- The complete external outcome of one delivery attempt:
`response = none` models a thrown `fetch` (network failure / timeout,
worker catch at `src/worker.js:195-199`). -/
structure DeliveryOutcome where
  response : Option WebhookResponse
  markRead : MarkReadResult
deriving DecidableEq, Repr

/-- The status that the per-job branch structure of `processJobs`
(`src/worker.js:143-199`) writes for a claimed job, given the attempt's
outcome: every failure branch runs `markJobError`, the final line of the
success path runs `markJobDone`.  Note that the mark-read step only fails
observably when the call throws; a non-throwing call with a failed PATCH
falls through to `markJobDone` (`src/worker.js:179-193`). -/
def attemptStatus (o : DeliveryOutcome) : Status :=
  match o.response with
  | none => Status.error
  | some resp =>
    if resp.ok = false then Status.error
    else
      match resp.body with
      | none => Status.error
      | some body =>
        if body.shouldMarkAsRead = some true then
          match o.markRead with
          | MarkReadResult.exn => Status.error
          | MarkReadResult.ret _ => Status.done
        else Status.error

/-- `src/worker.js:133-201` (`processJobs`): claim a batch with
`claimAndGetJobs(CLAIM_LIMIT)` and, sequentially for each claimed job, run
the delivery attempt and write the resulting status.  `world` assigns to a
job id the outcome its attempt produces on this tick. -/
def processJobs (s : Store) (limit : Nat) (world : Nat → DeliveryOutcome) :
    Store :=
  let claimed := claimAndGetJobs s limit
  claimed.1.foldl
    (fun st job =>
      if attemptStatus (world job.id) = Status.done then markJobDone st job.id
      else markJobError st job.id)
    claimed.2

/-- `N` consecutive ticks of the processing half of the main loop
(`src/worker.js:208-222` runs `processJobs` once per tick), with the same
per-id outcomes on every tick. -/
def processTicks (limit : Nat) (world : Nat → DeliveryOutcome) :
    Nat → Store → Store
  | 0, s => s
  | Nat.succ n, s => processTicks limit world n (processJobs s limit world)

/-! ### The mailbox poll (`src/worker.js:101-126`, `pollMailbox`) -/

/-- A message of the remote mailbox as the worker uses it: the Graph id,
the `isRead` flag, and the content from which `convertGraphMessage`
(`src/ms-graph-mail.js:265-277`) builds the payload. -/
structure GraphMessage where
  id : String
  isRead : Bool
  content : String
deriving DecidableEq, Repr

/-- The remote mailbox (the folder the worker polls). -/
structure Mailbox where
  messages : List GraphMessage
deriving DecidableEq, Repr

/-- `src/ms-graph-mail.js:190-206` (`fetchUnreadEmails`): a GET with
`$filter=isRead eq false&$top=10` — the unread messages, at most ten. -/
def fetchUnreadEmails (mb : Mailbox) : List GraphMessage :=
  (mb.messages.filter (fun m => m.isRead = false)).take 10

/-- `src/ms-graph-mail.js:265-277` (`convertGraphMessage`) followed by the
worker's `JSON.stringify` (`src/worker.js:117`): the serialized payload
built from the message content (its exact shape is opaque to the store). -/
def convertGraphMessage (m : GraphMessage) : String :=
  m.content

/-- `src/worker.js:101-126` (`pollMailbox`, patched variant): fetch the
unread messages and, for each, run `insertJob` with the message id as
`msg_id`, status `pending` and the converted payload.  The loop body
performs no other action — in particular it never calls
`markMessageAsRead` (`src/worker.js:120-121`), so the mailbox state is
returned unchanged. -/
def pollMailbox (mb : Mailbox) (s : Store) (now : Nat) : Mailbox × Store :=
  let msgs := fetchUnreadEmails mb
  (mb, msgs.foldl
    (fun st msg =>
      (insertJob st msg.id Status.pending (convertGraphMessage msg) now).1)
    s)

/-! ### Spec-side predicates (written from the claims, for comparison) -/

/-- The outcome is a transport error in the sense of the spec taxonomy:
network failure / timeout (thrown fetch), non-2xx response, or malformed
acknowledgment body. -/
def isTransportError (o : DeliveryOutcome) : Bool :=
  match o.response with
  | none => true
  | some resp => !resp.ok || resp.body.isNone

/-- The outcome is a fully successful attempt in the sense of the spec:
POST success, acknowledgment flag strictly true, and a mark-read call that
completed successfully (returned without throwing AND with an HTTP-success
PATCH response). -/
def isFullSuccess (o : DeliveryOutcome) : Bool :=
  match o.response with
  | none => false
  | some resp =>
    resp.ok &&
      (match resp.body with
       | none => false
       | some body => body.shouldMarkAsRead = some true) &&
      (match o.markRead with
       | MarkReadResult.exn => false
       | MarkReadResult.ret patchOk => patchOk)

/-- Claim C3, as stated: a pending job whose `next_run_at` lies strictly in
the future of `now` is invisible to the claim operation. -/
abbrev futureJobsInvisible (s : Store) (limit now : Nat) : Prop :=
  ∀ j ∈ s.rows, j.status = Status.pending → now < j.next_run_at →
    j.id ∉ (claimAndGetJobs s limit).1.map Job.id

/-- Claim C4, as stated: a claimed job whose attempt ends in a transport
error returns to `pending` with `attempts` advanced by one and a
`next_run_at` strictly in the future of `now`. -/
abbrev retryableGoesBackToPending (s : Store) (limit : Nat)
    (world : Nat → DeliveryOutcome) (now : Nat) : Prop :=
  ∀ j ∈ (claimAndGetJobs s limit).1, isTransportError (world j.id) = true →
    ∃ j2, rowOf (processJobs s limit world) j.id = some j2 ∧
      j2.status = Status.pending ∧ j2.attempts = j.attempts + 1 ∧
      now < j2.next_run_at

/-- Claim C5, as stated (its `attempts = N` clause): after `N` consecutive
ticks in which every attempt fails retryably, the job's attempts counter
equals `N`. -/
abbrev attemptsCountUpToN (s : Store) (limit : Nat)
    (world : Nat → DeliveryOutcome) (i N : Nat) : Prop :=
  (rowOf (processTicks limit world N s) i).map Job.attempts = some N

/-- Claim C8, as stated (its deletion clause): a fully successful attempt
removes the job's row from the store. -/
abbrev successDeletesRow (s : Store) (limit : Nat)
    (world : Nat → DeliveryOutcome) : Prop :=
  ∀ j ∈ (claimAndGetJobs s limit).1, isFullSuccess (world j.id) = true →
    rowOf (processJobs s limit world) j.id = none

/-! ### Concrete fixtures (used by counterexamples and witnesses) -/

/-- Row builder for fixtures: id, msg_id, status, payload, created_at,
attempts, next_run_at, in the column order of the file header. -/
def mkRow (i : Nat) (m : String) (st : Status) (p : String)
    (c a n : Nat) : Job :=
  { id := i, msg_id := m, status := st, payload := p, created_at := c,
    attempts := a, next_run_at := n }

/-- A store holding one pending job, as after a single ingestion: the SMTP
enqueuer inserts with `attempts = 0` and `next_run_at = created_at`; here
`next_run_at` is `100`. -/
def storeOnePending : Store :=
  { rows := [mkRow 1 "m1" Status.pending "p1" 100 0 100], nextId := 2 }

/-- A store holding two pending jobs (ids 1 and 2). -/
def storeTwoPending : Store :=
  { rows := [mkRow 1 "m1" Status.pending "p1" 3 0 3,
             mkRow 2 "m2" Status.pending "p2" 4 0 4], nextId := 3 }

/-- A store holding one job left in `processing` (as after a crash). -/
def storeOneProcessing : Store :=
  { rows := [mkRow 1 "m1" Status.processing "p1" 3 0 3], nextId := 2 }

/-- A store holding one job in `error`. -/
def storeOneError : Store :=
  { rows := [mkRow 1 "m1" Status.error "p1" 3 0 3], nextId := 2 }

/-- Every attempt fails at the transport: the `fetch` throws. -/
def worldNetFail : Nat → DeliveryOutcome :=
  fun _ => { response := none, markRead := MarkReadResult.exn }

/-- Webhook accepts (200, `shouldMarkAsRead: true`) but the mark-read PATCH
comes back non-2xx; the helper returns normally (`patchOk = false`). -/
def worldMarkReadHttpFail : Nat → DeliveryOutcome :=
  fun _ =>
    { response := some ⟨true, some ⟨some true⟩⟩,
      markRead := MarkReadResult.ret false }

/-- Every attempt fully succeeds. -/
def worldFullSuccess : Nat → DeliveryOutcome :=
  fun _ =>
    { response := some ⟨true, some ⟨some true⟩⟩,
      markRead := MarkReadResult.ret true }

/-! ### Infrastructure lemmas -/

/-- A delivery attempt writes either `done` or `error`: every branch of
`processJobs` ends in `markJobDone` or `markJobError`. -/
theorem attemptStatus_done_or_error (o : DeliveryOutcome) :
    attemptStatus o = Status.done ∨ attemptStatus o = Status.error := by
  unfold attemptStatus
  split
  · exact Or.inr rfl
  · split
    · exact Or.inr rfl
    · split
      · exact Or.inr rfl
      · split
        · split
          · exact Or.inr rfl
          · exact Or.inl rfl
        · exact Or.inr rfl

/-- `find?` by id over a row list transformed by an id-preserving map. -/
theorem find?_id_map (l : List Job) (f : Job → Job)
    (hf : ∀ r, (f r).id = r.id) (i : Nat) :
    (l.map f).find? (fun r => r.id = i) =
      (l.find? (fun r => r.id = i)).map f := by
  induction l with
  | nil => rfl
  | cons a l ih =>
    by_cases h : a.id = i
    · simp [List.find?_cons, hf, h]
    · simp [List.find?_cons, hf, h, ih]

/-- `find?` by id finds exactly the member row when ids are pairwise
distinct. -/
theorem find?_eq_of_mem_pairwise {l : List Job} {r : Job}
    (hp : l.Pairwise (fun a b => a.id ≠ b.id)) (hr : r ∈ l) :
    l.find? (fun x => x.id = r.id) = some r := by
  induction l with
  | nil => cases hr
  | cons a l ih =>
    rcases List.mem_cons.mp hr with h | h
    · subst h
      simp [List.find?_cons]
    · have ha : a.id ≠ r.id := (List.pairwise_cons.mp hp).1 r h
      simp [List.find?_cons, ha, ih (List.pairwise_cons.mp hp).2 h]

/-- Filtering a distinct-id row list by membership of the ids of one of its
sublists recovers exactly that sublist (`WHERE id IN (...)`). -/
theorem filter_mem_ids_eq_of_sublist :
    ∀ {l t : List Job}, t.Sublist l → l.Pairwise (fun a b => a.id ≠ b.id) →
    l.filter (fun r => r.id ∈ t.map Job.id) = t := by
  intro l
  induction l with
  | nil =>
    intro t hs _
    have ht : t = [] := List.sublist_nil.mp hs
    subst ht
    rfl
  | cons a l ih =>
    intro t hs hp
    cases hs with
    | cons _ hs =>
      have ha : a.id ∉ t.map Job.id := by
        intro hmem
        obtain ⟨x, hxt, hxa⟩ := List.mem_map.mp hmem
        exact (List.pairwise_cons.mp hp).1 x (hs.subset hxt) hxa.symm
      simp only [List.filter_cons]
      rw [if_neg (by simpa using ha)]
      exact ih hs (List.pairwise_cons.mp hp).2
    | cons₂ _ hs =>
      rename_i t1
      simp only [List.filter_cons, List.map_cons]
      rw [if_pos (by simp)]
      have hcong : l.filter
            (fun r => decide (r.id ∈ a.id :: t1.map Job.id)) =
          l.filter (fun r => decide (r.id ∈ t1.map Job.id)) := by
        apply List.filter_congr
        intro x hx
        have hax : a.id ≠ x.id := (List.pairwise_cons.mp hp).1 x hx
        have hiff : (x.id ∈ a.id :: t1.map Job.id) ↔ (x.id ∈ t1.map Job.id) := by
          constructor
          · intro hm
            rcases List.mem_cons.mp hm with h | h
            · exact absurd h.symm hax
            · exact h
          · exact fun hm => List.mem_cons.mpr (Or.inr hm)
        exact decide_eq_decide.mpr hiff
      rw [hcong, ih hs (List.pairwise_cons.mp hp).2]

/-- `WHERE id IN (ids of t)` over an id-preserving transform of a
distinct-id row list returns the transformed sublist. -/
theorem filter_mem_ids_map {t l : List Job} (hs : t.Sublist l)
    (hp : l.Pairwise (fun a b => a.id ≠ b.id)) (f : Job → Job)
    (hf : ∀ r, (f r).id = r.id) :
    (l.map f).filter (fun r => r.id ∈ t.map Job.id) = t.map f := by
  rw [List.filter_map]
  have h1 : l.filter ((fun (r : Job) => decide (r.id ∈ t.map Job.id)) ∘ f) =
      l.filter (fun (r : Job) => decide (r.id ∈ t.map Job.id)) :=
    List.filter_congr (fun x _ => by simp [Function.comp, hf])
  rw [h1, filter_mem_ids_eq_of_sublist hs hp]

/-- The selected rows form a sublist of the table. -/
theorem claimTake_sublist (s : Store) (limit : Nat) :
    (claimTake s limit).Sublist s.rows :=
  (List.take_sublist _ _).trans (List.filter_sublist _)

/-- Strict id ordering gives pairwise-distinct ids. -/
theorem pairwise_ne_of_WF {s : Store} (h : s.WF) :
    s.rows.Pairwise (fun a b => a.id ≠ b.id) :=
  h.1.imp (fun hlt => Nat.ne_of_lt hlt)

/-- First component of `claimAndGetJobs`: exactly the first `limit` pending
rows (in id order), returned with status transitioned to `processing`. -/
theorem claimAndGetJobs_fst (s : Store) (limit : Nat)
    (hp : s.rows.Pairwise (fun a b => a.id ≠ b.id)) :
    (claimAndGetJobs s limit).1 =
      (claimTake s limit).map
        (fun r => { r with status := Status.processing }) := by
  simp only [claimAndGetJobs]
  by_cases he : (claimIds s limit).isEmpty
  · rw [if_pos he]
    have ht : claimTake s limit = [] := by
      have := List.isEmpty_iff.mp he
      exact List.map_eq_nil_iff.mp this
    simp [ht]
  · rw [if_neg he]
    have hsub := claimTake_sublist s limit
    have hf : ∀ r : Job,
        ((fun r => if r.id ∈ claimIds s limit
          then { r with status := Status.processing } else r) r).id = r.id := by
      intro r
      by_cases h : r.id ∈ claimIds s limit <;> simp [h]
    have := filter_mem_ids_map hsub hp
      (fun r => if r.id ∈ claimIds s limit
        then { r with status := Status.processing } else r) hf
    simp only [claimIds] at this ⊢
    rw [this]
    apply List.map_congr_left
    intro r hr
    have : r.id ∈ (claimTake s limit).map Job.id := List.mem_map.mpr ⟨r, hr, rfl⟩
    simp [claimIds, this]

/-- Second component of `claimAndGetJobs`: the store with exactly the
selected rows transitioned to `processing`. -/
theorem claimAndGetJobs_snd (s : Store) (limit : Nat) :
    (claimAndGetJobs s limit).2 =
      { s with rows := s.rows.map (fun r =>
          if r.id ∈ claimIds s limit
          then { r with status := Status.processing } else r) } := by
  simp only [claimAndGetJobs]
  by_cases he : (claimIds s limit).isEmpty
  · rw [if_pos he]
    have hid : claimIds s limit = [] := List.isEmpty_iff.mp he
    simp [hid]
  · rw [if_neg he]

/-- The sequential per-job loop of `processJobs`, unrolled: each claimed job
gets exactly the status its attempt produced, every other row is
untouched. -/
theorem foldl_attempt_rows (world : Nat → DeliveryOutcome) :
    ∀ (js : List Job) (st : Store),
    (js.foldl (fun acc j =>
        if attemptStatus (world j.id) = Status.done then markJobDone acc j.id
        else markJobError acc j.id) st).rows =
      st.rows.map (fun r =>
        if r.id ∈ js.map Job.id
        then { r with status := attemptStatus (world r.id) } else r) := by
  intro js
  induction js with
  | nil =>
    intro st
    simp
  | cons j js ih =>
    intro st
    rw [List.foldl_cons, ih]
    have hstep : (if attemptStatus (world j.id) = Status.done
        then markJobDone st j.id else markJobError st j.id).rows =
        st.rows.map (fun r => if r.id = j.id
          then { r with status := attemptStatus (world j.id) } else r) := by
      rcases attemptStatus_done_or_error (world j.id) with h | h
      · rw [if_pos h, markJobDone, h]
      · rw [if_neg (by rw [h]; intro hc; exact Status.noConfusion hc),
          markJobError, h]
    rw [hstep, List.map_map]
    apply List.map_congr_left
    intro r _
    by_cases hr : r.id = j.id
    · by_cases hm : r.id ∈ js.map Job.id <;>
        simp [Function.comp, hr, hm, List.mem_cons]
    · by_cases hm : r.id ∈ js.map Job.id <;>
        simp [Function.comp, hr, hm, List.mem_cons]

/-- `processJobs` characterized row by row: a row selected by the claim gets
the status its delivery attempt produced; every other row — and every other
column — is unchanged. -/
theorem processJobs_rows (s : Store) (limit : Nat)
    (world : Nat → DeliveryOutcome)
    (hp : s.rows.Pairwise (fun a b => a.id ≠ b.id)) :
    (processJobs s limit world).rows =
      s.rows.map (fun r =>
        if r.id ∈ claimIds s limit
        then { r with status := attemptStatus (world r.id) } else r) := by
  unfold processJobs
  rw [foldl_attempt_rows, claimAndGetJobs_fst s limit hp,
    claimAndGetJobs_snd s limit]
  have hids : (claimTake s limit).map
      (Job.id ∘ fun r => { r with status := Status.processing }) =
      claimIds s limit := by
    apply List.map_congr_left
    intro r _
    rfl
  simp only [List.map_map]
  rw [hids]
  apply List.map_congr_left
  intro r _
  by_cases h : r.id ∈ claimIds s limit <;> simp [Function.comp, h]

/-- In a distinct-id row list, a shared id forces equality. -/
theorem eq_of_mem_of_same_id :
    ∀ {l : List Job}, l.Pairwise (fun a b => a.id ≠ b.id) →
    ∀ {a b : Job}, a ∈ l → b ∈ l → a.id = b.id → a = b := by
  intro l
  induction l with
  | nil =>
    intro _ a b ha
    cases ha
  | cons x l ih =>
    intro hp a b ha hb hid
    have hp1 := List.pairwise_cons.mp hp
    rcases List.mem_cons.mp ha with h1 | h1 <;>
      rcases List.mem_cons.mp hb with h2 | h2
    · rw [h1, h2]
    · exact absurd (h1 ▸ hid) (hp1.1 b h2)
    · exact absurd (h2 ▸ hid).symm (hp1.1 a h1)
    · exact ih hp1.2 h1 h2 hid

/-- An id-preserving row transform keeps ids pairwise distinct. -/
theorem pairwise_ne_map {l : List Job} (f : Job → Job)
    (hf : ∀ r, (f r).id = r.id)
    (hp : l.Pairwise (fun a b => a.id ≠ b.id)) :
    (l.map f).Pairwise (fun a b => a.id ≠ b.id) := by
  rw [List.pairwise_map]
  exact hp.imp (fun h => by simpa [hf] using h)

/-- A row selected by the claim query is a pending row of the table. -/
theorem mem_claimTake {s : Store} {limit : Nat} {r : Job}
    (h : r ∈ claimTake s limit) :
    r ∈ s.rows ∧ r.status = Status.pending := by
  have h1 : r ∈ s.rows.filter (fun r => r.status = Status.pending) :=
    (List.take_sublist _ _).subset h
  have h2 := List.mem_filter.mp h1
  exact ⟨h2.1, by simpa using h2.2⟩

/-- A claimed id comes from a pending row of the table. -/
theorem mem_claimIds_elim {s : Store} {limit : Nat} {i : Nat}
    (h : i ∈ claimIds s limit) :
    ∃ r ∈ s.rows, r.status = Status.pending ∧ r.id = i := by
  obtain ⟨r, hr, hid⟩ := List.mem_map.mp h
  obtain ⟨hmem, hst⟩ := mem_claimTake hr
  exact ⟨r, hmem, hst, hid⟩

/-- A row whose status is not `pending` is never selected by the claim
query. -/
theorem not_mem_claimIds_of_not_pending {s : Store}
    (hp : s.rows.Pairwise (fun a b => a.id ≠ b.id)) {r : Job}
    (hr : r ∈ s.rows) (hst : r.status ≠ Status.pending) (limit : Nat) :
    r.id ∉ claimIds s limit := by
  intro hmem
  obtain ⟨r2, hr2, hst2, hid2⟩ := mem_claimIds_elim hmem
  have := eq_of_mem_of_same_id hp hr2 hr hid2
  rw [this] at hst2
  exact hst hst2

/-- The ids of the claimed batch are exactly the selected ids. -/
theorem claim_batch_ids (s : Store) (limit : Nat)
    (hp : s.rows.Pairwise (fun a b => a.id ≠ b.id)) :
    (claimAndGetJobs s limit).1.map Job.id = claimIds s limit := by
  rw [claimAndGetJobs_fst s limit hp, List.map_map]
  apply List.map_congr_left
  intro r _
  rfl

/-- A transport error (thrown fetch, non-2xx, or malformed body) ends the
attempt in `markJobError`. -/
theorem attemptStatus_of_transportError {o : DeliveryOutcome}
    (h : isTransportError o = true) : attemptStatus o = Status.error := by
  obtain ⟨resp, mr⟩ := o
  rcases resp with _ | ⟨ok, body⟩
  · rfl
  · rcases ok with _ | _
    · simp [attemptStatus]
    · rcases body with _ | b
      · simp [attemptStatus]
      · simp [isTransportError] at h

/-- A fully successful attempt ends in `markJobDone`. -/
theorem attemptStatus_of_fullSuccess {o : DeliveryOutcome}
    (h : isFullSuccess o = true) : attemptStatus o = Status.done := by
  obtain ⟨resp, mr⟩ := o
  rcases resp with _ | ⟨ok, body⟩
  · simp [isFullSuccess] at h
  · rcases ok with _ | _
    · simp [isFullSuccess] at h
    · rcases body with _ | b
      · simp [isFullSuccess] at h
      · rcases mr with _ | patchOk
        · simp [isFullSuccess] at h
        · rcases hsm : b.shouldMarkAsRead with _ | flag
          · simp [isFullSuccess, hsm] at h
          · rcases flag with _ | _
            · simp [isFullSuccess, hsm] at h
            · simp [attemptStatus, hsm]

/-- The status rewrite of one processing tick preserves ids. -/
theorem tick_update_preserves_id (s : Store) (limit : Nat)
    (world : Nat → DeliveryOutcome) :
    ∀ x : Job, ((fun x => if x.id ∈ claimIds s limit
      then { x with status := attemptStatus (world x.id) } else x) x).id = x.id := by
  intro x
  by_cases hx : x.id ∈ claimIds s limit <;> simp [hx]

/-- One processing tick keeps row ids pairwise distinct. -/
theorem processJobs_pairwise (s : Store) (limit : Nat)
    (world : Nat → DeliveryOutcome)
    (hp : s.rows.Pairwise (fun a b => a.id ≠ b.id)) :
    (processJobs s limit world).rows.Pairwise (fun a b => a.id ≠ b.id) := by
  rw [processJobs_rows s limit world hp]
  exact pairwise_ne_map _ (tick_update_preserves_id s limit world) hp

/-- The row of a job selected by the claim, after the tick: same row with
the attempt's status. -/
theorem processJobs_rowOf_claimed (s : Store) (limit : Nat)
    (world : Nat → DeliveryOutcome)
    (hp : s.rows.Pairwise (fun a b => a.id ≠ b.id)) (r : Job)
    (hrt : r ∈ claimTake s limit) :
    rowOf (processJobs s limit world) r.id =
      some { r with status := attemptStatus (world r.id) } := by
  obtain ⟨hrm, _⟩ := mem_claimTake hrt
  have hcl : r.id ∈ claimIds s limit := List.mem_map.mpr ⟨r, hrt, rfl⟩
  unfold rowOf
  rw [processJobs_rows s limit world hp,
    find?_id_map _ _ (tick_update_preserves_id s limit world),
    find?_eq_of_mem_pairwise hp hrm]
  simp [hcl]

/-- The row of a job not selected by the claim is untouched by the tick. -/
theorem processJobs_rowOf_unclaimed (s : Store) (limit : Nat)
    (world : Nat → DeliveryOutcome)
    (hp : s.rows.Pairwise (fun a b => a.id ≠ b.id)) (r : Job)
    (hrm : r ∈ s.rows) (hnc : r.id ∉ claimIds s limit) :
    rowOf (processJobs s limit world) r.id = some r := by
  unfold rowOf
  rw [processJobs_rows s limit world hp,
    find?_id_map _ _ (tick_update_preserves_id s limit world),
    find?_eq_of_mem_pairwise hp hrm]
  simp [hnc]

/-- After the tick, the row of a claimed job is present with a non-pending
status, so it is not selected by any later claim against the resulting
store. -/
theorem processed_row (s : Store) (h : s.WF) (limit : Nat)
    (world : Nat → DeliveryOutcome) (j : Job)
    (hj : j ∈ (claimAndGetJobs s limit).1) :
    rowOf (processJobs s limit world) j.id =
      some { j with status := attemptStatus (world j.id) } ∧
    ∀ l2, j.id ∉ (claimAndGetJobs (processJobs s limit world) l2).1.map Job.id := by
  have hp := pairwise_ne_of_WF h
  rw [claimAndGetJobs_fst s limit hp] at hj
  obtain ⟨r, hrt, hrj⟩ := List.mem_map.mp hj
  have hrow := processJobs_rowOf_claimed s limit world hp r hrt
  constructor
  · rw [← hrj]
    exact hrow
  · intro l2
    rw [← hrj]
    show r.id ∉ _
    have hp2 := processJobs_pairwise s limit world hp
    rw [claim_batch_ids _ l2 hp2]
    have hmem2 : ({ r with status := attemptStatus (world r.id) } : Job) ∈
        (processJobs s limit world).rows := by
      have := List.mem_of_find?_eq_some hrow
      exact this
    have hnp : ({ r with status := attemptStatus (world r.id) } : Job).status ≠
        Status.pending := by
      show attemptStatus (world r.id) ≠ Status.pending
      rcases attemptStatus_done_or_error (world r.id) with hd | hd <;>
        rw [hd] <;> intro hc <;> exact Status.noConfusion hc
    exact not_mem_claimIds_of_not_pending hp2 hmem2 hnp l2

/-- A row that is not claimable stays a member across a tick. -/
theorem row_unclaimed_mem (s : Store) (limit : Nat)
    (world : Nat → DeliveryOutcome)
    (hp : s.rows.Pairwise (fun a b => a.id ≠ b.id)) (r : Job)
    (hr : r ∈ s.rows) (hnc : r.id ∉ claimIds s limit) :
    r ∈ (processJobs s limit world).rows := by
  rw [processJobs_rows s limit world hp]
  refine List.mem_map.mpr ⟨r, hr, ?_⟩
  simp [hnc]

/-- A row in `error` survives any number of ticks entirely unchanged: it is
never selected (claims take only `pending` rows) and never rewritten. -/
theorem error_row_stable_ticks (limit : Nat) (world : Nat → DeliveryOutcome) :
    ∀ (n : Nat) (s : Store),
    s.rows.Pairwise (fun a b => a.id ≠ b.id) →
    ∀ r ∈ s.rows, r.status = Status.error →
    rowOf (processTicks limit world n s) r.id = some r := by
  intro n
  induction n with
  | zero =>
    intro s hp r hr _
    exact find?_eq_of_mem_pairwise hp hr
  | succ n ih =>
    intro s hp r hr hst
    have hnc : r.id ∉ claimIds s limit :=
      not_mem_claimIds_of_not_pending hp hr
        (by rw [hst]; intro hc; exact Status.noConfusion hc) limit
    show rowOf (processTicks limit world n (processJobs s limit world)) r.id = some r
    exact ih (processJobs s limit world)
      (processJobs_pairwise s limit world hp)
      r (row_unclaimed_mem s limit world hp r hr hnc) hst

/-- Every pre-existing row survives an `INSERT OR IGNORE`. -/
theorem insertJob_rows_mono (s : Store) (m : String) (stt : Status)
    (p : String) (now : Nat) :
    ∀ r ∈ s.rows, r ∈ (insertJob s m stt p now).1.rows := by
  intro r hr
  by_cases h : s.rows.any (fun r => r.msg_id = m) = true
  · simpa [insertJob, h] using hr
  · simp only [insertJob, if_neg h]
    exact List.mem_append_left _ hr

/-- A row present after an `INSERT OR IGNORE` is a pre-existing row or the
freshly inserted one. -/
theorem insertJob_mem_elim {s : Store} {m : String} {stt : Status}
    {p : String} {now : Nat} {r : Job}
    (hr : r ∈ (insertJob s m stt p now).1.rows) :
    r ∈ s.rows ∨ (r.status = stt ∧ r.msg_id = m) := by
  by_cases h : s.rows.any (fun r => r.msg_id = m) = true
  · left
    simpa [insertJob, h] using hr
  · rw [insertJob, if_neg h] at hr
    rcases List.mem_append.mp hr with h1 | h1
    · exact Or.inl h1
    · right
      have := List.mem_singleton.mp h1
      subst this
      exact ⟨rfl, rfl⟩

/-- After an `INSERT OR IGNORE`, some row carries the inserted `msg_id`. -/
theorem insertJob_msgid_present (s : Store) (m : String) (stt : Status)
    (p : String) (now : Nat) :
    ∃ r ∈ (insertJob s m stt p now).1.rows, r.msg_id = m := by
  by_cases h : s.rows.any (fun r => r.msg_id = m) = true
  · obtain ⟨r, hr, hm⟩ := List.any_eq_true.mp h
    exact ⟨r, by simpa [insertJob, h] using hr, of_decide_eq_true hm⟩
  · rw [insertJob, if_neg h]
    refine ⟨_, List.mem_append_right _ (List.mem_singleton.mpr rfl), rfl⟩

/-- Pre-existing rows survive the whole poll loop. -/
theorem pollFold_mem_mono (now : Nat) :
    ∀ (msgs : List GraphMessage) (st : Store) (r : Job), r ∈ st.rows →
    r ∈ (msgs.foldl (fun st msg =>
      (insertJob st msg.id Status.pending (convertGraphMessage msg) now).1)
      st).rows := by
  intro msgs
  induction msgs with
  | nil =>
    intro st r hr
    exact hr
  | cons m ms ih =>
    intro st r hr
    exact ih _ r (insertJob_rows_mono st m.id Status.pending
      (convertGraphMessage m) now r hr)

/-- A row present after the poll loop is a pre-existing row or a pending
job inserted for one of the looped-over messages. -/
theorem pollFold_mem_elim (now : Nat) :
    ∀ (msgs : List GraphMessage) (st : Store) (r : Job),
    r ∈ (msgs.foldl (fun st msg =>
      (insertJob st msg.id Status.pending (convertGraphMessage msg) now).1)
      st).rows →
    r ∈ st.rows ∨ (r.status = Status.pending ∧ ∃ m ∈ msgs, r.msg_id = m.id) := by
  intro msgs
  induction msgs with
  | nil =>
    intro st r hr
    exact Or.inl hr
  | cons m ms ih =>
    intro st r hr
    rcases ih _ r hr with h1 | h1
    · rcases insertJob_mem_elim h1 with h2 | h2
      · exact Or.inl h2
      · exact Or.inr ⟨h2.1, m, List.mem_cons_self m ms, h2.2⟩
    · exact Or.inr ⟨h1.1, h1.2.choose,
        List.mem_cons_of_mem m h1.2.choose_spec.1, h1.2.choose_spec.2⟩

/-- After the poll loop, every looped-over message has a row carrying its
id as `msg_id`. -/
theorem pollFold_presence (now : Nat) :
    ∀ (msgs : List GraphMessage) (st : Store), ∀ m0 ∈ msgs,
    ∃ r ∈ (msgs.foldl (fun st msg =>
      (insertJob st msg.id Status.pending (convertGraphMessage msg) now).1)
      st).rows, r.msg_id = m0.id := by
  intro msgs
  induction msgs with
  | nil =>
    intro st m0 hm0
    cases hm0
  | cons m ms ih =>
    intro st m0 hm0
    rcases List.mem_cons.mp hm0 with h | h
    · subst h
      obtain ⟨r, hr, hrm⟩ := insertJob_msgid_present st m0.id Status.pending
        (convertGraphMessage m0) now
      exact ⟨r, pollFold_mem_mono now ms _ r hr, hrm⟩
    · exact ih _ m0 h

/-- The claim-update of the store preserves ids. -/
theorem claim_update_preserves_id (s : Store) (l1 : Nat) :
    ∀ x : Job, ((fun r => if r.id ∈ claimIds s l1
      then { r with status := Status.processing } else r) x).id = x.id := by
  intro x
  by_cases hx : x.id ∈ claimIds s l1 <;> simp [hx]

/-- The crash-recovery rewrite of the store, row by row. -/
theorem recover_rows (s : Store) :
    (recoverStuckProcessing s).rows = s.rows.map (fun x =>
      if x.status = Status.processing then { x with status := Status.pending }
      else x) := rfl

/-- The crash-recovery rewrite preserves ids. -/
theorem reset_preserves_id :
    ∀ x : Job, ((fun x => if x.status = Status.processing
      then { x with status := Status.pending } else x) x).id = x.id := by
  intro x
  by_cases hx : x.status = Status.processing <;> simp [hx]

/-- `statusOf` after an `INSERT OR IGNORE`, for an id already present: the
found row (and in particular its status) is unchanged, whether the insert
was ignored or appended a fresh row. -/
theorem statusOf_insert_of_found {s : Store} {i : Nat} {r0 : Job}
    (hfind : s.rows.find? (fun r => r.id = i) = some r0)
    (m : String) (stt : Status) (p : String) (now : Nat) :
    statusOf (insertJob s m stt p now).1 i = some r0.status := by
  by_cases hb : s.rows.any (fun r => r.msg_id = m) = true
  · simp only [insertJob, if_pos hb]
    show (s.rows.find? (fun r => r.id = i)).map Job.status = some r0.status
    rw [hfind]
    rfl
  · simp only [insertJob, if_neg hb]
    show ((s.rows ++ [mkRow s.nextId m stt p now 0 now]).find?
        (fun r => r.id = i)).map Job.status = some r0.status
    rw [List.find?_append, hfind]
    rfl

/-- C1: the worker marks a job `done` even though the mark-read call
failed, whenever the failure is a non-2xx PATCH response:
`markMessageAsRead` only logs that failure and returns normally
(`src/ms-graph-mail.js:221-224`), so the worker's catch never fires and it
falls through to `markJobDone` (`src/worker.js:179-193`).  Concretely: one
claimed pending job; webhook answers 200 with `shouldMarkAsRead: true`; the
Graph PATCH comes back non-2xx — the job still ends in `done`, violating
the claim that a delivery attempt failing at the mark-read step leaves the
status not `done`. -/
theorem done_despite_markRead_http_failure :
    statusOf (processJobs storeOnePending 10 worldMarkReadHttpFail) 1 =
      some Status.done ∧
    (worldMarkReadHttpFail 1).markRead = MarkReadResult.ret false := by
  exact ⟨by decide, rfl⟩

/-- C2: two claim operations against the same store (serialized by the
SQLite transaction that makes each claim atomic) return disjoint batches:
the first transitions its rows to `processing`, and the second selects only
rows still `pending`, so no job id appears in both batches. -/
theorem claim_batches_disjoint (s : Store) (h : s.WF) (l1 l2 : Nat) :
    ∀ j1 ∈ (claimAndGetJobs s l1).1,
    ∀ j2 ∈ (claimAndGetJobs (claimAndGetJobs s l1).2 l2).1,
    j1.id ≠ j2.id := by
  intro j1 h1 j2 h2 heq
  have hp := pairwise_ne_of_WF h
  have hid1 : j1.id ∈ claimIds s l1 := by
    rw [← claim_batch_ids s l1 hp]
    exact List.mem_map.mpr ⟨j1, h1, rfl⟩
  have hsnd := claimAndGetJobs_snd s l1
  have hp2 : (claimAndGetJobs s l1).2.rows.Pairwise
      (fun a b => a.id ≠ b.id) := by
    rw [hsnd]
    exact pairwise_ne_map _ (claim_update_preserves_id s l1) hp
  rw [claimAndGetJobs_fst _ l2 hp2] at h2
  obtain ⟨r2, hrt2, hrj2⟩ := List.mem_map.mp h2
  obtain ⟨hmem2, hpend2⟩ := mem_claimTake hrt2
  have hmem2b : r2 ∈ s.rows.map (fun r => if r.id ∈ claimIds s l1
      then { r with status := Status.processing } else r) := by
    rw [hsnd] at hmem2
    exact hmem2
  obtain ⟨r0, hr0, hfr0⟩ := List.mem_map.mp hmem2b
  have hid2 : j2.id = r0.id := by
    rw [← hrj2]
    show r2.id = r0.id
    rw [← hfr0]
    exact claim_update_preserves_id s l1 r0
  have hnc : r0.id ∉ claimIds s l1 := by
    intro hx
    rw [← hfr0] at hpend2
    simp [hx] at hpend2
  apply hnc
  rw [← hid2, ← heq]
  exact hid1

/-- Witness for C2 at a concrete two-job store. -/
theorem claim_batches_disjoint_witness :
    storeTwoPending.WF ∧
    (∀ j1 ∈ (claimAndGetJobs storeTwoPending 1).1,
     ∀ j2 ∈ (claimAndGetJobs (claimAndGetJobs storeTwoPending 1).2 1).1,
     j1.id ≠ j2.id) :=
  ⟨by decide, claim_batches_disjoint storeTwoPending (by decide) 1 1⟩

/-- C3 counterexample: the claim operation of the worker is not
time-gated.  The store holds one pending job with `next_run_at = 100`; a
claim "at `now = 0`" (the worker's query has no `now` parameter at all)
still returns it, refuting `next_run_at <= now` as a claim precondition:
`claimAndGetJobs` filters on `status='pending'` only
(`src/worker.js:73`). -/
theorem claim_ignores_next_run_at :
    ¬ futureJobsInvisible storeOnePending 10 0 := by decide

/-- C3 (amended): `claimAndGetJobs` returns at most `limit` jobs; every
returned job was `pending` at the moment of the claim and is returned as
its full row, transitioned to `processing`; the batch consists of the first
`limit` pending rows in ascending `id` (= insertion) order.  Eligibility is
not time-gated: the query has no `next_run_at` condition, so every pending
job is immediately claimable. -/
theorem claimAndGetJobs_spec (s : Store) (h : s.WF) (limit : Nat) :
    (claimAndGetJobs s limit).1 =
      (claimTake s limit).map
        (fun r => { r with status := Status.processing }) ∧
    (claimAndGetJobs s limit).1.length ≤ limit ∧
    (∀ j ∈ (claimAndGetJobs s limit).1, ∃ r ∈ s.rows,
      r.status = Status.pending ∧ j = { r with status := Status.processing }) ∧
    (claimAndGetJobs s limit).1.Pairwise (fun a b => a.id < b.id) := by
  have hp := pairwise_ne_of_WF h
  have hfst := claimAndGetJobs_fst s limit hp
  refine ⟨hfst, ?_, ?_, ?_⟩
  · rw [hfst, List.length_map, claimTake, List.length_take]
    exact min_le_left _ _
  · intro j hj
    rw [hfst] at hj
    obtain ⟨r, hrt, hrj⟩ := List.mem_map.mp hj
    obtain ⟨hrm, hpend⟩ := mem_claimTake hrt
    exact ⟨r, hrm, hpend, hrj.symm⟩
  · rw [hfst]
    have hsub : (claimTake s limit).Pairwise (fun a b => a.id < b.id) :=
      List.Pairwise.sublist (claimTake_sublist s limit) h.1
    exact List.pairwise_map.mpr (hsub.imp (fun hab => hab))

/-- Witness for the amended C3 at a concrete two-job store with limit 1. -/
theorem claimAndGetJobs_spec_witness :
    storeTwoPending.WF ∧
    (claimAndGetJobs storeTwoPending 1).1.length ≤ 1 ∧
    (∀ j ∈ (claimAndGetJobs storeTwoPending 1).1,
      ∃ r ∈ storeTwoPending.rows, r.status = Status.pending ∧
        j = { r with status := Status.processing }) :=
  ⟨by decide, (claimAndGetJobs_spec storeTwoPending (by decide) 1).2.1,
    (claimAndGetJobs_spec storeTwoPending (by decide) 1).2.2.1⟩

/-- C4 counterexample: a claimed job whose attempt ends in a transport
error (here: the `fetch` throws) does not return to `pending` with
`attempts + 1` and a future `next_run_at`; the worker runs `markJobError`
(`src/worker.js:198`), which only sets `status = 'error'`. -/
theorem transport_error_not_repending :
    ¬ retryableGoesBackToPending storeOnePending 10 worldNetFail 0 := by
  decide

/-- C4 (amended): a claimed job whose attempt ends in a transport error is
not dropped — its full row remains, with `status` set to `error` (not
`pending`) and every other column, `attempts` and `next_run_at` included,
unchanged — and it is not claimable by any later claim, because claims
select only `pending` rows and nothing ever reschedules an `error` job. -/
theorem transport_error_marks_error (s : Store) (h : s.WF) (limit : Nat)
    (world : Nat → DeliveryOutcome) (j : Job)
    (hj : j ∈ (claimAndGetJobs s limit).1)
    (hfail : isTransportError (world j.id) = true) :
    rowOf (processJobs s limit world) j.id =
      some { j with status := Status.error } ∧
    (rowOf (processJobs s limit world) j.id).map Job.attempts =
      some j.attempts ∧
    (rowOf (processJobs s limit world) j.id).map Job.next_run_at =
      some j.next_run_at ∧
    ∀ l2, j.id ∉ (claimAndGetJobs (processJobs s limit world) l2).1.map Job.id := by
  obtain ⟨h1, h2⟩ := processed_row s h limit world j hj
  rw [attemptStatus_of_transportError hfail] at h1
  exact ⟨h1, by rw [h1]; rfl, by rw [h1]; rfl, h2⟩

/-- Witness for the amended C4: the single pending job fails with a thrown
fetch and ends as the same row with status `error`. -/
theorem transport_error_marks_error_witness :
    storeOnePending.WF ∧
    rowOf (processJobs storeOnePending 10 worldNetFail) 1 =
      some (mkRow 1 "m1" Status.error "p1" 100 0 100) := by
  refine ⟨by decide, ?_⟩
  have hj : (mkRow 1 "m1" Status.processing "p1" 100 0 100) ∈
      (claimAndGetJobs storeOnePending 10).1 := by decide
  exact (transport_error_marks_error storeOnePending (by decide) 10
    worldNetFail _ hj (by decide)).1

/-- C5 counterexample: after one tick in which the only job fails
retryably, the job's `attempts` counter is still 0, not 1: `markJobError`
touches no column but `status`, and no backoff delay exists anywhere in the
worker. -/
theorem no_attempts_increment :
    ¬ attemptsCountUpToN storeOnePending 10 worldNetFail 1 1 := by decide

/-- C5 (amended): the worker has no backoff schedule at all. A claimed
job whose attempts all fail retryably ends, after any `N ≥ 1` ticks, as its
original row with `status = error`: `attempts` still equals its initial
value (not `N`) and `next_run_at` is unchanged (trivially non-decreasing),
because the first failure parks the job in `error` and `error` rows are
never claimed again. -/
theorem no_backoff_retry_schedule (s : Store) (h : s.WF) (limit N : Nat)
    (world : Nat → DeliveryOutcome)
    (hw : ∀ i, isTransportError (world i) = true) (r : Job)
    (hr : r ∈ s.rows) (hcl : r.id ∈ claimIds s limit) (hN : 1 ≤ N) :
    rowOf (processTicks limit world N s) r.id =
      some { r with status := Status.error } ∧
    (rowOf (processTicks limit world N s) r.id).map Job.attempts =
      some r.attempts ∧
    (rowOf (processTicks limit world N s) r.id).map Job.next_run_at =
      some r.next_run_at := by
  have hp := pairwise_ne_of_WF h
  rcases N with _ | n
  · exact absurd hN (by decide)
  · obtain ⟨r1, hrt1, hid1⟩ := List.mem_map.mp hcl
    have hr1 : r1 = r := eq_of_mem_of_same_id hp (mem_claimTake hrt1).1 hr hid1
    subst hr1
    have hrow1 := processJobs_rowOf_claimed s limit world hp r1 hrt1
    rw [attemptStatus_of_transportError (hw r1.id)] at hrow1
    have hmem2 : ({ r1 with status := Status.error } : Job) ∈
        (processJobs s limit world).rows :=
      List.mem_of_find?_eq_some hrow1
    have hp2 := processJobs_pairwise s limit world hp
    have hstable := error_row_stable_ticks limit world n
      (processJobs s limit world) hp2 { r1 with status := Status.error }
      hmem2 rfl
    have hfinal : rowOf (processTicks limit world (n + 1) s) r1.id =
        some { r1 with status := Status.error } := by
      show rowOf (processTicks limit world n (processJobs s limit world))
        r1.id = some { r1 with status := Status.error }
      exact hstable
    exact ⟨hfinal, by rw [hfinal]; rfl, by rw [hfinal]; rfl⟩

/-- Witness for the amended C5: one failing tick leaves the job as its
original row with status `error` and `attempts` still 0. -/
theorem no_backoff_retry_schedule_witness :
    storeOnePending.WF ∧
    rowOf (processTicks 10 worldNetFail 1 storeOnePending) 1 =
      some (mkRow 1 "m1" Status.error "p1" 100 0 100) := by
  refine ⟨by decide, ?_⟩
  exact (no_backoff_retry_schedule storeOnePending (by decide) 10 1
    worldNetFail (fun _ => rfl) (mkRow 1 "m1" Status.pending "p1" 100 0 100)
    (by decide) (by decide) (by decide)).1

/-- C6: insertion is idempotent on the dedup key (the remote message id,
stored in the UNIQUE column `msg_id`): when exactly one record with that
`msg_id` exists, inserting again returns the store unchanged and reports
`false` (better-sqlite3's `info.changes = 0`, i.e. not newly created) —
no failure, no overwrite — and the store still holds exactly one record
for that `msg_id`. -/
theorem insertJob_idempotent (s : Store) (m : String) (stt : Status)
    (p : String) (now : Nat)
    (h1 : s.rows.countP (fun r => r.msg_id = m) = 1) :
    insertJob s m stt p now = (s, false) ∧
    (insertJob s m stt p now).1.rows.countP (fun r => r.msg_id = m) = 1 := by
  have hpos : 0 < s.rows.countP (fun r => r.msg_id = m) := by
    rw [h1]
    exact Nat.one_pos
  obtain ⟨r, hr, hm⟩ := List.countP_pos_iff.mp hpos
  have hany : s.rows.any (fun r => r.msg_id = m) = true :=
    List.any_eq_true.mpr ⟨r, hr, hm⟩
  have heq : insertJob s m stt p now = (s, false) := by
    rw [insertJob, if_pos hany]
  exact ⟨heq, by rw [heq]; exact h1⟩

/-- Witness for C6: re-inserting `msg_id` "m1" into the store that already
holds it is a no-op reported as not-new. -/
theorem insertJob_idempotent_witness :
    storeOnePending.rows.countP (fun r => r.msg_id = "m1") = 1 ∧
    insertJob storeOnePending "m1" Status.pending "p2" 7 =
      (storeOnePending, false) :=
  ⟨by decide,
    (insertJob_idempotent storeOnePending "m1" Status.pending "p2" 7
      (by decide)).1⟩

/-- With a limit covering the whole table, every pending row's id is
selected by the claim query. -/
theorem mem_claimIds_of_full_limit {s2 : Store} {r2 : Job}
    (hmem : r2 ∈ s2.rows) (hpend : r2.status = Status.pending) :
    r2.id ∈ claimIds s2 s2.rows.length := by
  unfold claimIds claimTake
  have hlen : (s2.rows.filter
      (fun r => r.status = Status.pending)).length ≤ s2.rows.length :=
    List.length_filter_le _ _
  rw [List.take_of_length_le hlen]
  exact List.mem_map.mpr ⟨r2,
    List.mem_filter.mpr ⟨hmem, by simp [hpend]⟩, rfl⟩

/-- C7: startup crash recovery (`recoverStuckProcessing`, run at
`src/worker.js:225`) resets every `processing` row to `pending`; afterwards
no row is in `processing`, and each reset job is again selected by a claim
whose limit covers the table (it is eligible for reclaiming). -/
theorem recover_resets_processing (s : Store) (h : s.WF) (r : Job)
    (hr : r ∈ s.rows) (hst : r.status = Status.processing) :
    statusOf (recoverStuckProcessing s) r.id = some Status.pending ∧
    (∀ x ∈ (recoverStuckProcessing s).rows, x.status ≠ Status.processing) ∧
    r.id ∈ claimIds (recoverStuckProcessing s)
      ((recoverStuckProcessing s).rows.length) := by
  have hp := pairwise_ne_of_WF h
  refine ⟨?_, ?_, ?_⟩
  · unfold statusOf
    rw [recover_rows, find?_id_map _ _ reset_preserves_id,
      find?_eq_of_mem_pairwise hp hr]
    simp [hst]
  · intro x hx
    rw [recover_rows] at hx
    obtain ⟨x0, _, hfx0⟩ := List.mem_map.mp hx
    rw [← hfx0]
    by_cases hx0 : x0.status = Status.processing
    · simp [hx0]
    · simp only [if_neg hx0]
      exact hx0
  · have hmem2 : ({ r with status := Status.pending } : Job) ∈
        (recoverStuckProcessing s).rows := by
      rw [recover_rows]
      exact List.mem_map.mpr ⟨r, hr, by simp [hst]⟩
    exact @mem_claimIds_of_full_limit (recoverStuckProcessing s)
      { r with status := Status.pending } hmem2 rfl

/-- Witness for C7: the single `processing` job is `pending` again after
recovery. -/
theorem recover_resets_processing_witness :
    storeOneProcessing.WF ∧
    statusOf (recoverStuckProcessing storeOneProcessing) 1 =
      some Status.pending :=
  ⟨by decide,
    (recover_resets_processing storeOneProcessing (by decide)
      (mkRow 1 "m1" Status.processing "p1" 3 0 3) (by decide) rfl).1⟩

/-- C8 counterexample: a fully successful attempt does not delete the
job's row.  The worker's success path runs only
`UPDATE jobs SET status='done' WHERE id=?` (`src/worker.js:64,193`); there
is no `DELETE` statement anywhere in the worker, so the row remains in the
store with status `done`. -/
theorem success_does_not_delete :
    ¬ successDeletesRow storeOnePending 10 worldFullSuccess := by decide

/-- C8 (amended): a fully successful attempt (webhook 200,
`shouldMarkAsRead: true`, mark-read completed) marks the job `done`; the
row is not deleted — it remains in the store with status `done` — and the
job is no longer claimable by any subsequent claim operation, since claims
select only `pending` rows. -/
theorem full_success_marks_done (s : Store) (h : s.WF) (limit : Nat)
    (world : Nat → DeliveryOutcome) (j : Job)
    (hj : j ∈ (claimAndGetJobs s limit).1)
    (hsucc : isFullSuccess (world j.id) = true) :
    rowOf (processJobs s limit world) j.id =
      some { j with status := Status.done } ∧
    ∀ l2, j.id ∉ (claimAndGetJobs (processJobs s limit world) l2).1.map Job.id := by
  obtain ⟨h1, h2⟩ := processed_row s h limit world j hj
  rw [attemptStatus_of_fullSuccess hsucc] at h1
  exact ⟨h1, h2⟩

/-- Witness for the amended C8: the single pending job succeeds fully and
ends as the same row with status `done`, still present. -/
theorem full_success_marks_done_witness :
    storeOnePending.WF ∧
    rowOf (processJobs storeOnePending 10 worldFullSuccess) 1 =
      some (mkRow 1 "m1" Status.done "p1" 100 0 100) := by
  refine ⟨by decide, ?_⟩
  have hj : (mkRow 1 "m1" Status.processing "p1" 100 0 100) ∈
      (claimAndGetJobs storeOnePending 10).1 := by decide
  exact (full_success_marks_done storeOnePending (by decide) 10
    worldFullSuccess _ hj (by decide)).1

/-- C9: the patched poll (`src/worker.js:101-126`) performs no mailbox
mutation — the fetched mailbox state is returned unchanged, so every
message's read flag is exactly as before the poll — and its only store
effect is `INSERT OR IGNORE` of a pending job per fetched unread message:
every row afterwards is a pre-existing row or such an insert, and every
fetched unread message has a job row carrying its id. -/
theorem pollMailbox_frame (mb : Mailbox) (s : Store) (now : Nat) :
    (pollMailbox mb s now).1 = mb ∧
    (∀ r ∈ (pollMailbox mb s now).2.rows,
      r ∈ s.rows ∨ (r.status = Status.pending ∧
        ∃ msg ∈ fetchUnreadEmails mb, r.msg_id = msg.id)) ∧
    (∀ msg ∈ fetchUnreadEmails mb,
      ∃ r ∈ (pollMailbox mb s now).2.rows, r.msg_id = msg.id) := by
  refine ⟨rfl, ?_, ?_⟩
  · intro r hr
    exact pollFold_mem_elim now (fetchUnreadEmails mb) s r hr
  · intro msg hm
    exact pollFold_presence now (fetchUnreadEmails mb) s msg hm

/-- C10: `error` is terminal for the worker.  A job whose status is
`error` keeps that status across every worker operation: `insertJob` never
rewrites an existing row; the claim query selects only `pending` rows, so
the job is never in a batch and the claim transition leaves it; startup
recovery rewrites only `processing` rows; and a full processing tick
rewrites only rows it claimed.  Nothing in the worker ever retries an
`error` job. -/
theorem error_is_terminal (s : Store) (h : s.WF) (i : Nat)
    (he : statusOf s i = some Status.error) :
    (∀ (m : String) (stt : Status) (p : String) (now : Nat),
      statusOf (insertJob s m stt p now).1 i = some Status.error) ∧
    (∀ limit, i ∉ (claimAndGetJobs s limit).1.map Job.id ∧
      statusOf (claimAndGetJobs s limit).2 i = some Status.error) ∧
    statusOf (recoverStuckProcessing s) i = some Status.error ∧
    (∀ limit world,
      statusOf (processJobs s limit world) i = some Status.error) := by
  have hp := pairwise_ne_of_WF h
  obtain ⟨r0, hfind, hst0⟩ : ∃ r0,
      s.rows.find? (fun r => r.id = i) = some r0 ∧
      r0.status = Status.error := by
    unfold statusOf at he
    rcases hf : s.rows.find? (fun r => r.id = i) with _ | r0
    · rw [hf] at he
      exact Option.noConfusion he
    · rw [hf] at he
      exact ⟨r0, hf, by simpa using he⟩
  have hmem := List.mem_of_find?_eq_some hfind
  have hid : r0.id = i := by
    have hpr := List.find?_some hfind
    simpa using hpr
  have hnp : r0.status ≠ Status.pending := by
    rw [hst0]
    intro hc
    exact Status.noConfusion hc
  have hnc : ∀ limit, i ∉ claimIds s limit := by
    intro limit
    rw [← hid]
    exact not_mem_claimIds_of_not_pending hp hmem hnp limit
  refine ⟨?_, ?_, ?_, ?_⟩
  · intro m stt p now
    rw [statusOf_insert_of_found hfind m stt p now, hst0]
  · intro limit
    constructor
    · rw [claim_batch_ids s limit hp]
      exact hnc limit
    · unfold statusOf
      rw [claimAndGetJobs_snd s limit]
      show ((s.rows.map (fun r => if r.id ∈ claimIds s limit
          then { r with status := Status.processing } else r)).find?
          (fun r => r.id = i)).map Job.status = some Status.error
      rw [find?_id_map _ _ (claim_update_preserves_id s limit), hfind]
      have hni : r0.id ∉ claimIds s limit := by
        rw [hid]
        exact hnc limit
      simp [hni, hst0]
  · unfold statusOf
    rw [recover_rows, find?_id_map _ _ reset_preserves_id, hfind]
    have hnpr : r0.status ≠ Status.processing := by
      rw [hst0]
      intro hc
      exact Status.noConfusion hc
    simp [hnpr, hst0]
  · intro limit world
    unfold statusOf
    rw [processJobs_rows s limit world hp,
      find?_id_map _ _ (tick_update_preserves_id s limit world), hfind]
    have hni : r0.id ∉ claimIds s limit := by
      rw [hid]
      exact hnc limit
    simp [hni, hst0]

/-- Witness for C10: the single `error` job stays `error` across an
insert, a claim, recovery, and a full tick. -/
theorem error_is_terminal_witness :
    storeOneError.WF ∧ statusOf storeOneError 1 = some Status.error ∧
    statusOf (insertJob storeOneError "m9" Status.pending "p9" 9).1 1 =
      some Status.error ∧
    statusOf (processJobs storeOneError 10 worldFullSuccess) 1 =
      some Status.error := by
  refine ⟨by decide, by decide, ?_, ?_⟩
  · exact (error_is_terminal storeOneError (by decide) 1 (by decide)).1
      "m9" Status.pending "p9" 9
  · exact (error_is_terminal storeOneError (by decide) 1
      (by decide)).2.2.2 10 worldFullSuccess

end LocalMailForwarder
